import Mathlib

/-!
Shallow embedding of the BGE-M3 embedding model server
(`model_server/app.py`): device detection, model loading, the mock and
real embedding paths, batch chunking, the `/embed` and `/health`
handlers and the per-vector normalization step.

Modelling conventions:
* machine floats are modelled by `ℝ`;
* the numpy global RNG is an explicit stream `g : ℕ → Fin 1024 → ℝ` of
  raw gaussian draws together with a counter `k` of draws consumed so
  far (`np.random.randn(1024)` always returns exactly 1024 entries);
* the black-box `BGEM3FlagModel.encode` call is an explicit `Encoder`
  parameter returning `Except`: a `.error` result models an exception
  raised during the call;
* a raised `HTTPException(status_code, detail)` is an `HTTPError`
  value; the wall-clock `processing_time` field is outside the
  embedding and omitted from the response record.
-/

noncomputable section

/-- Sum of squares of the entries of a vector. -/
def sumSq (v : List ℝ) : ℝ := (v.map (fun x => x ^ 2)).sum

/-- L2 norm of a vector, `np.linalg.norm(v)` (app.py line 173). -/
def l2norm (v : List ℝ) : ℝ := Real.sqrt (sumSq v)

/-- The per-vector normalization step of `embed_texts_actual`
(app.py lines 172-177): divide by the L2 norm when it is positive,
otherwise return the vector unchanged. -/
def normalizeVec (v : List ℝ) : List ℝ :=
  if 0 < l2norm v then v.map (fun x => x / l2norm v) else v

/-- Black-box dense encoder standing for `BGEM3FlagModel.encode` with
`return_dense=True` (app.py lines 151-157); the dict / ndarray
unwrapping of lines 160-166 is absorbed into the `List (List ℝ)`
result.  A `.error` result models an exception raised during the
call. -/
structure Encoder where
  encode : List String → ℤ → Except String (List (List ℝ))

/-- The black-box contract of the external dense encoder (spec sections
1 and 3): one 1024-dimension dense vector per input string, in input
order. -/
def ValidEncoder (m : Encoder) : Prop :=
  ∀ ts bs r, m.encode ts bs = .ok r → r.length = ts.length ∧ ∀ v ∈ r, v.length = 1024

/-- Host environment as seen by `detect_device` (app.py lines 52-64):
the results of `torch.cuda.is_available()` and
`torch.backends.mps.is_available()`. -/
structure Env where
  cuda_available : Bool
  mps_available : Bool

/-- `detect_device` (app.py lines 52-64). -/
def detect_device (e : Env) : String :=
  if e.cuda_available then "cuda"
  else if e.mps_available then "mps"
  else "cpu"

/-- `load_model` (app.py lines 66-94).  The whole `try` body — device
object construction, `BGEM3FlagModel(...)` and the `.cuda()` / `.to`
moves — is abstracted as one `attempt` outcome; on an exception the
function logs, leaves the global `model` as it stood before the
successful assignment (`prev`) and returns `False` instead of
propagating the exception. -/
def load_model (attempt : Except String Encoder) (prev : Option Encoder) :
    Bool × Option Encoder :=
  match attempt with
  | .ok m => (true, some m)
  | .error _ => (false, prev)

/-- `embed_texts_mock` (app.py lines 126-139): each text consumes one
fresh raw draw from the RNG stream, which is divided by its own L2 norm
unconditionally (line 136); the updated draw counter is returned
alongside the embeddings. -/
def embed_texts_mock (g : ℕ → Fin 1024 → ℝ) :
    List String → ℕ → List (List ℝ) × ℕ
  | [], k => ([], k)
  | _ :: ts, k =>
    let embedding := List.ofFn (g k)
    let normalized := embedding.map (fun x => x / l2norm embedding)
    let rest := embed_texts_mock g ts (k + 1)
    (normalized :: rest.1, rest.2)

/-- `embed_texts_actual` (app.py lines 141-186): with no model loaded
(line 146), or when the encode call raises (line 182), fall back to the
mock embedder for the whole call (consuming RNG draws); otherwise
normalize each vector the model returned. -/
def embed_texts_actual (enc : Option Encoder) (g : ℕ → Fin 1024 → ℝ)
    (texts : List String) (batch_size : ℤ) (k : ℕ) : List (List ℝ) × ℕ :=
  match enc with
  | none => embed_texts_mock g texts k
  | some m =>
    match m.encode texts batch_size with
    | .error _ => embed_texts_mock g texts k
    | .ok embeddings => (embeddings.map normalizeVec, k)

/-- The batching loop of `embed_texts` (app.py lines 237-242) for a
positive step `bs`: chunks `texts[i:i+bs]` are processed in order and
the per-chunk embeddings concatenated with `extend`; the RNG counter
threads through the mock calls.  For `bs ≥ 1`, `t :: ts.take (bs - 1)`
is `(t :: ts).take bs` and `ts.drop (bs - 1)` is `(t :: ts).drop bs`. -/
def embedChunks (enc : Option Encoder) (g : ℕ → Fin 1024 → ℝ) (bs : ℕ) :
    List String → ℕ → List (List ℝ) × ℕ
  | [], k => ([], k)
  | t :: ts, k =>
    let chunk := t :: ts.take (bs - 1)
    let r1 := embed_texts_actual enc g chunk (bs : ℤ) k
    let r2 := embedChunks enc g bs (ts.drop (bs - 1)) r1.2
    (r1.1 ++ r2.1, r2.2)
termination_by ts _ => ts.length
decreasing_by simp [List.length_drop]; omega

/-- `EmbedRequest` (app.py lines 36-39).  `batch_size` is
`Optional[int]` with default 64, so `none` stands for an explicit JSON
`null`; `normalize` is accepted but never read by the handler. -/
structure EmbedRequest where
  texts : List String
  batch_size : Option ℤ := some 64
  normalize : Option Bool := some true

/-- The `model_info` mapping built by `embed_texts` (app.py lines
250-256), minus the wall-clock `processing_time`; `device` is the raw
global, possibly `None`. -/
structure EmbedModelInfo where
  model_name : String
  device : Option String
  embedding_dim : ℕ
  text_count : ℕ

/-- `EmbedResponse` (app.py lines 41-43). -/
structure EmbedResponse where
  embeddings : List (List ℝ)
  model_info : EmbedModelInfo

/-- A raised `HTTPException(status_code, detail)`. -/
structure HTTPError where
  status : ℕ
  detail : String

/-- Line 234: `batch_size = min(request.batch_size or 64, 64)`.  Python
`or` replaces the falsy values `None` and `0` by 64; negative values
pass through. -/
def effectiveBatchSize (requested : Option ℤ) : ℤ :=
  min (match requested with
       | none => 64
       | some b => if b = 0 then 64 else b) 64

/-- Body of the `try:` block of the `/embed` handler (app.py lines
220-257).  The two validation failures are the `HTTPException(400, ...)`
raises of lines 225 and 228; `range(0, len(texts), bs)` is empty when
`bs < 0`, and `bs = 0`, where `range` would raise `ValueError`, is
unreachable (see `effectiveBatchSize_ne_zero`). -/
def embed_texts_inner (enc : Option Encoder) (g : ℕ → Fin 1024 → ℝ)
    (dev : Option String) (req : EmbedRequest) (k : ℕ) :
    Except HTTPError EmbedResponse :=
  if req.texts.isEmpty then
    .error ⟨400, "No texts provided"⟩
  else if req.texts.length > 64 then
    .error ⟨400, "Too many texts. Maximum allowed: 64"⟩
  else
    let bs := effectiveBatchSize req.batch_size
    let all_embeddings :=
      if 0 < bs then (embedChunks enc g bs.toNat req.texts k).1 else []
    .ok ⟨all_embeddings, ⟨"BAAI/bge-m3", dev, 1024, req.texts.length⟩⟩

/-- The `/embed` handler `embed_texts` (app.py lines 213-261).  The
blanket `except Exception` of line 259 catches every exception raised
inside the `try:` block — including the two `HTTPException(400, ...)`
raised by the validation code, whose `str()` is
`"{status_code}: {detail}"` — and re-raises it as a 500. -/
def embed_texts (enc : Option Encoder) (g : ℕ → Fin 1024 → ℝ)
    (dev : Option String) (req : EmbedRequest) (k : ℕ) :
    Except HTTPError EmbedResponse :=
  match embed_texts_inner enc g dev req k with
  | .ok r => .ok r
  | .error e =>
    .error ⟨500, "Embedding generation failed: " ++ toString e.status ++ ": " ++ e.detail⟩

/-- Python `s or default` on an optional string: `None` and `""` are
falsy. -/
def pyOrStr (s : Option String) (dflt : String) : String :=
  match s with
  | none => dflt
  | some x => if x = "" then dflt else x

/-- The `model_info` mapping of `health_check` (app.py lines 191-196). -/
structure HealthModelInfo where
  model_name : String
  embedding_dim : ℕ
  device : String
  model_type : String

/-- `HealthResponse` (app.py lines 45-50). -/
structure HealthResponse where
  status : String
  device : String
  model_loaded : Bool
  model_info : HealthModelInfo

/-- The `/health` handler `health_check` (app.py lines 188-211): status
starts as `"healthy"` and is demoted to `"healthy_mock"` when no model
is loaded; the handler itself never raises. -/
def health_check (enc : Option Encoder) (dev : Option String) : HealthResponse :=
  { status := if enc.isNone then "healthy_mock" else "healthy"
    device := pyOrStr dev "unknown"
    model_loaded := enc.isSome
    model_info := ⟨"BAAI/bge-m3", 1024, pyOrStr dev "unknown", "BGE-M3"⟩ }

/-- A concrete RNG stream for witnesses: every raw draw is all-ones. -/
def g0 : ℕ → Fin 1024 → ℝ := fun _ _ => 1

/-- A concrete encoder whose every call raises. -/
def failEnc : Encoder := ⟨fun _ _ => .error "boom"⟩

/-! ## Basic facts about `sumSq`, `l2norm` and `normalizeVec` -/

theorem sumSq_cons (a : ℝ) (v : List ℝ) : sumSq (a :: v) = a ^ 2 + sumSq v := by
  simp [sumSq]

theorem sumSq_nonneg (v : List ℝ) : 0 ≤ sumSq v := by
  induction v with
  | nil => simp [sumSq]
  | cons a t ih => rw [sumSq_cons]; exact add_nonneg (sq_nonneg a) ih

theorem sumSq_eq_zero_iff (v : List ℝ) : sumSq v = 0 ↔ ∀ x ∈ v, x = 0 := by
  induction v with
  | nil => simp [sumSq]
  | cons a t ih =>
    rw [sumSq_cons, add_eq_zero_iff_of_nonneg (sq_nonneg a) (sumSq_nonneg t),
      sq_eq_zero_iff, ih, List.forall_mem_cons]

theorem sumSq_map_div (v : List ℝ) (c : ℝ) :
    sumSq (v.map (fun x => x / c)) = sumSq v / c ^ 2 := by
  induction v with
  | nil => simp [sumSq]
  | cons a t ih => simp [sumSq_cons, ih, div_pow, add_div]

theorem l2norm_nonneg (v : List ℝ) : 0 ≤ l2norm v := Real.sqrt_nonneg _

theorem l2norm_eq_zero_iff (v : List ℝ) : l2norm v = 0 ↔ ∀ x ∈ v, x = 0 := by
  rw [l2norm, Real.sqrt_eq_zero (sumSq_nonneg v), sumSq_eq_zero_iff]

theorem l2norm_pos_iff (v : List ℝ) : 0 < l2norm v ↔ 0 < sumSq v := by
  rw [l2norm, Real.sqrt_pos]

/-- Dividing a vector of positive norm by its own norm yields a unit
vector. -/
theorem l2norm_map_div_self (v : List ℝ) (h : 0 < l2norm v) :
    l2norm (v.map (fun x => x / l2norm v)) = 1 := by
  have hs : 0 < sumSq v := (l2norm_pos_iff v).mp h
  simp only [l2norm, sumSq_map_div]
  rw [Real.sq_sqrt (sumSq_nonneg v), div_self (ne_of_gt hs), Real.sqrt_one]

theorem normalizeVec_length (v : List ℝ) : (normalizeVec v).length = v.length := by
  unfold normalizeVec
  split <;> simp

/-- The normalization step leaves a zero-norm vector unchanged. -/
theorem normalizeVec_of_norm_zero (v : List ℝ) (h : l2norm v = 0) :
    normalizeVec v = v := by
  unfold normalizeVec
  rw [if_neg]
  simp [h]

/-- A vector of positive norm comes out of the normalization step with
norm exactly 1. -/
theorem normalizeVec_of_norm_pos (v : List ℝ) (h : 0 < l2norm v) :
    l2norm (normalizeVec v) = 1 := by
  unfold normalizeVec
  rw [if_pos h]
  exact l2norm_map_div_self v h

/-- Every vector produced by the normalization step has unit norm or is
all-zero (with norm zero). -/
theorem normalizeVec_spec (v : List ℝ) :
    l2norm (normalizeVec v) = 1 ∨
      (l2norm (normalizeVec v) = 0 ∧ ∀ x ∈ normalizeVec v, x = 0) := by
  rcases lt_or_eq_of_le (l2norm_nonneg v) with h | h
  · exact Or.inl (normalizeVec_of_norm_pos v h)
  · rw [normalizeVec_of_norm_zero v h.symm]
    exact Or.inr ⟨h.symm, (l2norm_eq_zero_iff v).mp h.symm⟩

/-- The unconditional division of the mock embedder (app.py line 136)
also yields a unit vector or the all-zero vector. -/
theorem mockVec_spec (w : List ℝ) :
    l2norm (w.map (fun x => x / l2norm w)) = 1 ∨
      (l2norm (w.map (fun x => x / l2norm w)) = 0 ∧
        ∀ x ∈ w.map (fun x => x / l2norm w), x = 0) := by
  rcases lt_or_eq_of_le (l2norm_nonneg w) with h | h
  · exact Or.inl (l2norm_map_div_self w h)
  · right
    have hall : ∀ x ∈ w.map (fun x => x / l2norm w), x = 0 := by
      intro x hx
      rcases List.mem_map.mp hx with ⟨y, _, rfl⟩
      rw [← h, div_zero]
    exact ⟨(l2norm_eq_zero_iff _).mpr hall, hall⟩

/-! ## Facts about the mock and real embedding paths -/

theorem embed_texts_mock_length (g : ℕ → Fin 1024 → ℝ) :
    ∀ (ts : List String) (k : ℕ),
      ((embed_texts_mock g ts k).1).length = ts.length := by
  intro ts
  induction ts with
  | nil => intro k; rfl
  | cons t ts ih =>
    intro k
    simp only [embed_texts_mock, List.length_cons, ih (k + 1)]

set_option maxRecDepth 8192 in
theorem embed_texts_mock_mem (g : ℕ → Fin 1024 → ℝ) :
    ∀ (ts : List String) (k : ℕ), ∀ v ∈ (embed_texts_mock g ts k).1,
      v.length = 1024 ∧
        (l2norm v = 1 ∨ (l2norm v = 0 ∧ ∀ x ∈ v, x = 0)) := by
  intro ts
  induction ts with
  | nil => intro k v hv; exact absurd hv (List.not_mem_nil v)
  | cons t ts ih =>
    intro k v hv
    simp only [embed_texts_mock, List.mem_cons] at hv
    rcases hv with hv | hv
    · constructor
      · rw [hv, List.length_map, List.length_ofFn]
      · rw [hv]
        exact mockVec_spec (List.ofFn (g k))
    · exact ih (k + 1) v hv

theorem embed_texts_actual_length (enc : Option Encoder)
    (hval : ∀ m ∈ enc, ValidEncoder m) (g : ℕ → Fin 1024 → ℝ)
    (texts : List String) (bs : ℤ) (k : ℕ) :
    ((embed_texts_actual enc g texts bs k).1).length = texts.length := by
  cases enc with
  | none => exact embed_texts_mock_length g texts k
  | some m =>
    have hm : ValidEncoder m := hval m rfl
    simp only [embed_texts_actual]
    cases hr : m.encode texts bs with
    | error e => exact embed_texts_mock_length g texts k
    | ok r =>
      simp only [List.length_map]
      exact (hm texts bs r hr).1

theorem embed_texts_actual_mem_norm (enc : Option Encoder)
    (g : ℕ → Fin 1024 → ℝ) (texts : List String) (bs : ℤ) (k : ℕ) :
    ∀ v ∈ (embed_texts_actual enc g texts bs k).1,
      l2norm v = 1 ∨ (l2norm v = 0 ∧ ∀ x ∈ v, x = 0) := by
  cases enc with
  | none => exact fun v hv => (embed_texts_mock_mem g texts k v hv).2
  | some m =>
    simp only [embed_texts_actual]
    cases hr : m.encode texts bs with
    | error e => exact fun v hv => (embed_texts_mock_mem g texts k v hv).2
    | ok r =>
      intro v hv
      simp only [List.mem_map] at hv
      rcases hv with ⟨u, _, rfl⟩
      exact normalizeVec_spec u

theorem embed_texts_actual_mem_length (enc : Option Encoder)
    (hval : ∀ m ∈ enc, ValidEncoder m) (g : ℕ → Fin 1024 → ℝ)
    (texts : List String) (bs : ℤ) (k : ℕ) :
    ∀ v ∈ (embed_texts_actual enc g texts bs k).1, v.length = 1024 := by
  cases enc with
  | none => exact fun v hv => (embed_texts_mock_mem g texts k v hv).1
  | some m =>
    have hm : ValidEncoder m := hval m rfl
    simp only [embed_texts_actual]
    cases hr : m.encode texts bs with
    | error e => exact fun v hv => (embed_texts_mock_mem g texts k v hv).1
    | ok r =>
      intro v hv
      simp only [List.mem_map] at hv
      rcases hv with ⟨u, hu, rfl⟩
      rw [normalizeVec_length]
      exact (hm texts bs r hr).2 u hu

/-! ## Facts about the batching loop -/

theorem embedChunks_length (enc : Option Encoder)
    (hval : ∀ m ∈ enc, ValidEncoder m) (g : ℕ → Fin 1024 → ℝ) (bs : ℕ) :
    ∀ (ts : List String) (k : ℕ),
      ((embedChunks enc g bs ts k).1).length = ts.length := by
  have H : ∀ (n : ℕ) (ts : List String), ts.length ≤ n → ∀ k,
      ((embedChunks enc g bs ts k).1).length = ts.length := by
    intro n
    induction n with
    | zero =>
      intro ts hts k
      have hnil : ts = [] := List.length_eq_zero.mp (Nat.le_zero.mp hts)
      subst hnil
      simp [embedChunks]
    | succ n ih =>
      intro ts hts k
      cases ts with
      | nil => simp [embedChunks]
      | cons t ts =>
        have hdrop : (ts.drop (bs - 1)).length ≤ n := by
          simp only [List.length_cons] at hts
          simp only [List.length_drop]
          omega
        simp only [embedChunks, List.length_append,
          embed_texts_actual_length enc hval g, ih _ hdrop]
        simp only [List.length_cons, List.length_take, List.length_drop]
        omega
  exact fun ts k => H ts.length ts le_rfl k

theorem embedChunks_mem_norm (enc : Option Encoder) (g : ℕ → Fin 1024 → ℝ)
    (bs : ℕ) :
    ∀ (ts : List String) (k : ℕ), ∀ v ∈ (embedChunks enc g bs ts k).1,
      l2norm v = 1 ∨ (l2norm v = 0 ∧ ∀ x ∈ v, x = 0) := by
  have H : ∀ (n : ℕ) (ts : List String), ts.length ≤ n → ∀ k,
      ∀ v ∈ (embedChunks enc g bs ts k).1,
        l2norm v = 1 ∨ (l2norm v = 0 ∧ ∀ x ∈ v, x = 0) := by
    intro n
    induction n with
    | zero =>
      intro ts hts k v hv
      have hnil : ts = [] := List.length_eq_zero.mp (Nat.le_zero.mp hts)
      subst hnil
      simp [embedChunks] at hv
    | succ n ih =>
      intro ts hts k v hv
      cases ts with
      | nil => simp [embedChunks] at hv
      | cons t ts =>
        have hdrop : (ts.drop (bs - 1)).length ≤ n := by
          simp only [List.length_cons] at hts
          simp only [List.length_drop]
          omega
        simp only [embedChunks, List.mem_append] at hv
        rcases hv with hv | hv
        · exact embed_texts_actual_mem_norm enc g _ _ k v hv
        · exact ih _ hdrop _ v hv
  exact fun ts k => H ts.length ts le_rfl k

theorem embedChunks_mem_length (enc : Option Encoder)
    (hval : ∀ m ∈ enc, ValidEncoder m) (g : ℕ → Fin 1024 → ℝ) (bs : ℕ) :
    ∀ (ts : List String) (k : ℕ),
      ∀ v ∈ (embedChunks enc g bs ts k).1, v.length = 1024 := by
  have H : ∀ (n : ℕ) (ts : List String), ts.length ≤ n → ∀ k,
      ∀ v ∈ (embedChunks enc g bs ts k).1, v.length = 1024 := by
    intro n
    induction n with
    | zero =>
      intro ts hts k v hv
      have hnil : ts = [] := List.length_eq_zero.mp (Nat.le_zero.mp hts)
      subst hnil
      simp [embedChunks] at hv
    | succ n ih =>
      intro ts hts k v hv
      cases ts with
      | nil => simp [embedChunks] at hv
      | cons t ts =>
        have hdrop : (ts.drop (bs - 1)).length ≤ n := by
          simp only [List.length_cons] at hts
          simp only [List.length_drop]
          omega
        simp only [embedChunks, List.mem_append] at hv
        rcases hv with hv | hv
        · exact embed_texts_actual_mem_length enc hval g _ _ k v hv
        · exact ih _ hdrop _ v hv
  exact fun ts k => H ts.length ts le_rfl k

/-- With a loaded model whose encode maps each text independently
through `f` and never raises, the chunked loop returns exactly the
per-text normalized encodings, in input order, and consumes no RNG
draw. -/
theorem embedChunks_pointwise (m : Encoder) (f : String → List ℝ)
    (hm : ∀ ts bs2, m.encode ts bs2 = .ok (ts.map f))
    (g : ℕ → Fin 1024 → ℝ) (bs : ℕ) :
    ∀ (ts : List String) (k : ℕ),
      embedChunks (some m) g bs ts k =
        (ts.map fun t => normalizeVec (f t), k) := by
  have H : ∀ (n : ℕ) (ts : List String), ts.length ≤ n → ∀ k,
      embedChunks (some m) g bs ts k =
        (ts.map fun t => normalizeVec (f t), k) := by
    intro n
    induction n with
    | zero =>
      intro ts hts k
      have hnil : ts = [] := List.length_eq_zero.mp (Nat.le_zero.mp hts)
      subst hnil
      simp [embedChunks]
    | succ n ih =>
      intro ts hts k
      cases ts with
      | nil => simp [embedChunks]
      | cons t ts =>
        have hdrop : (ts.drop (bs - 1)).length ≤ n := by
          simp only [List.length_cons] at hts
          simp only [List.length_drop]
          omega
        simp only [embedChunks, embed_texts_actual, hm, ih _ hdrop]
        rw [Prod.mk.injEq]
        refine ⟨?_, rfl⟩
        simp only [List.map_map, Function.comp_def]
        rw [← List.map_append, List.cons_append, List.take_append_drop]
  exact fun ts k => H ts.length ts le_rfl k

/-! ## Facts about the effective batch size -/

/-- `min(request.batch_size or 64, 64)` is never 0, so the
`range(0, n, batch_size)` of line 237 never raises `ValueError`. -/
theorem effectiveBatchSize_ne_zero (r : Option ℤ) :
    effectiveBatchSize r ≠ 0 := by
  cases r with
  | none => decide
  | some b =>
    simp only [effectiveBatchSize]
    by_cases hb : b = 0
    · simp [hb]
    · rw [if_neg hb]
      omega

theorem effectiveBatchSize_pos (b : ℤ) (hb : 0 < b) :
    0 < effectiveBatchSize (some b) := by
  simp only [effectiveBatchSize]
  rw [if_neg (ne_of_gt hb)]
  omega

theorem effectiveBatchSize_neg (b : ℤ) (hb : b < 0) :
    effectiveBatchSize (some b) = b := by
  simp only [effectiveBatchSize]
  rw [if_neg (ne_of_lt hb)]
  omega

/-! ## Facts about the `/embed` handler -/

/-- On a valid request (non-empty texts, at most 64 of them, positive
requested batch size) the handler succeeds and returns the concatenated
chunk results. -/
theorem embed_texts_ok (enc : Option Encoder) (g : ℕ → Fin 1024 → ℝ)
    (dev : Option String) (texts : List String) (b : ℤ) (nm : Option Bool)
    (k : ℕ) (hne : texts ≠ []) (hlen : texts.length ≤ 64) (hb : 0 < b) :
    embed_texts enc g dev ⟨texts, some b, nm⟩ k =
      .ok ⟨(embedChunks enc g (effectiveBatchSize (some b)).toNat texts k).1,
           ⟨"BAAI/bge-m3", dev, 1024, texts.length⟩⟩ := by
  have hie : texts.isEmpty = false := by
    cases texts with
    | nil => exact absurd rfl hne
    | cons a l => rfl
  have hgt : ¬ texts.length > 64 := by omega
  have hpos : 0 < effectiveBatchSize (some b) := effectiveBatchSize_pos b hb
  simp only [embed_texts, embed_texts_inner, hie, Bool.false_eq_true,
    if_false, if_neg hgt, if_pos hpos]

/-- Every vector in a successful inner response has unit norm or is the
all-zero vector. -/
theorem embed_texts_inner_mem_norm (enc : Option Encoder)
    (g : ℕ → Fin 1024 → ℝ) (dev : Option String) (req : EmbedRequest)
    (k : ℕ) (resp : EmbedResponse)
    (hok : embed_texts_inner enc g dev req k = .ok resp) :
    ∀ u ∈ resp.embeddings,
      l2norm u = 1 ∨ (l2norm u = 0 ∧ ∀ x ∈ u, x = 0) := by
  unfold embed_texts_inner at hok
  split at hok
  · simp at hok
  · split at hok
    · simp at hok
    · simp only [Except.ok.injEq] at hok
      subst hok
      intro u hu
      split at hu
      · exact embedChunks_mem_norm enc g _ req.texts k u hu
      · exact absurd hu (List.not_mem_nil u)

/-- Every vector in a successful `/embed` response has unit norm or is
the all-zero vector, whichever path produced it. -/
theorem embed_texts_mem_norm (enc : Option Encoder)
    (g : ℕ → Fin 1024 → ℝ) (dev : Option String) (req : EmbedRequest)
    (k : ℕ) (resp : EmbedResponse)
    (hok : embed_texts enc g dev req k = .ok resp) :
    ∀ u ∈ resp.embeddings,
      l2norm u = 1 ∨ (l2norm u = 0 ∧ ∀ x ∈ u, x = 0) := by
  unfold embed_texts at hok
  cases hin : embed_texts_inner enc g dev req k with
  | error e => rw [hin] at hok; simp at hok
  | ok r =>
    rw [hin] at hok
    simp only [Except.ok.injEq] at hok
    subst hok
    exact embed_texts_inner_mem_norm enc g dev req k r hin

/-! ## Claims -/

/-- Claim C6: the device selector is a pure function of the host
environment that always returns exactly one of the three device tags,
with the fixed priority cuda (if available) over mps (if available)
over cpu, and cpu as the unconditional final fallback, so there is no
failure path. -/
theorem claim_C6_detect_device (e : Env) :
    (detect_device e = "cuda" ∨ detect_device e = "mps" ∨
      detect_device e = "cpu") ∧
    (detect_device e = "cuda" ↔ e.cuda_available = true) ∧
    (detect_device e = "mps" ↔
      (e.cuda_available = false ∧ e.mps_available = true)) ∧
    (detect_device e = "cpu" ↔
      (e.cuda_available = false ∧ e.mps_available = false)) := by
  obtain ⟨c, m⟩ := e
  cases c <;> cases m <;> simp [detect_device]

/-- Claim C5: the health endpoint is a total function (the framework
returns its value with status code 200): with no model loaded it
reports status "healthy_mock" and model_loaded false, and with a model
loaded it reports status "healthy" and model_loaded true. -/
theorem claim_C5_health (dev : Option String) (m : Encoder) :
    ((health_check none dev).status = "healthy_mock" ∧
      (health_check none dev).model_loaded = false) ∧
    ((health_check (some m) dev).status = "healthy" ∧
      (health_check (some m) dev).model_loaded = true) := by
  simp [health_check]

/-- Claim C3: model unavailability never surfaces as an error to the
caller: `load_model` returns a boolean that is true exactly when the
load attempt succeeded (so False on any failure, with no exception
propagating past it), and `embed_texts_actual` — a total function, so
it always returns a result — yields the mock embedder output both when
no model is loaded and when the encode call raises. -/
theorem claim_C3_model_unavailable (attempt : Except String Encoder)
    (prev : Option Encoder) (m : Encoder) (g : ℕ → Fin 1024 → ℝ)
    (texts : List String) (bs : ℤ) (k : ℕ) (e : String)
    (henc : m.encode texts bs = .error e) :
    ((load_model attempt prev).1 = true ↔ ∃ a, attempt = .ok a) ∧
    embed_texts_actual none g texts bs k = embed_texts_mock g texts k ∧
    embed_texts_actual (some m) g texts bs k = embed_texts_mock g texts k := by
  refine ⟨?_, rfl, ?_⟩
  · cases attempt <;> simp [load_model]
  · simp [embed_texts_actual, henc]

/-- Witness for claim C3 at a concrete failed load attempt and an
encoder whose call raises. -/
theorem claim_C3_witness :
    failEnc.encode ["hi"] 2 = .error "boom" ∧
    (((load_model (.error "x") none).1 = true ↔
        ∃ a, (Except.error "x" : Except String Encoder) = .ok a) ∧
      embed_texts_actual none g0 ["hi"] 2 0 = embed_texts_mock g0 ["hi"] 0 ∧
      embed_texts_actual (some failEnc) g0 ["hi"] 2 0 =
        embed_texts_mock g0 ["hi"] 0) :=
  ⟨rfl, claim_C3_model_unavailable (.error "x") none failEnc g0 ["hi"] 2 0
    "boom" rfl⟩

/-- Claim C7: the service normalization step is idempotent — applied to
a vector that already has unit L2 norm, it returns the vector
unchanged. -/
theorem claim_C7_normalize_idempotent (v : List ℝ) (h : l2norm v = 1) :
    normalizeVec v = v := by
  unfold normalizeVec
  rw [if_pos (by rw [h]; exact one_pos)]
  rw [h]
  simp

/-- Witness for claim C7 at the concrete unit vector `[1]`. -/
theorem claim_C7_witness : l2norm [1] = 1 ∧ normalizeVec [1] = [1] := by
  have h : l2norm [1] = 1 := by simp [l2norm, sumSq]
  exact ⟨h, claim_C7_normalize_idempotent [1] h⟩

/-- Claim C8: the response of the embed operation does not depend on
the `normalize` flag — for fixed texts, batch size, encoder, RNG state
and device, the flag values true and false (indeed any two values)
yield identical responses, because the handler never reads the flag and
normalization is always applied. -/
theorem claim_C8_normalize_flag_ignored (enc : Option Encoder)
    (g : ℕ → Fin 1024 → ℝ) (dev : Option String) (texts : List String)
    (bs : Option ℤ) (n1 n2 : Option Bool) (k : ℕ) :
    embed_texts enc g dev ⟨texts, bs, n1⟩ k =
      embed_texts enc g dev ⟨texts, bs, n2⟩ k := rfl

/-- Claim C10: a requested batch size of 0 is replaced by the default
64 — `min(0 or 64, 64) = 64` — so the request behaves exactly like one
with the batch size omitted (JSON null). -/
theorem claim_C10_zero_batch_is_default (enc : Option Encoder)
    (g : ℕ → Fin 1024 → ℝ) (dev : Option String) (texts : List String)
    (nm : Option Bool) (k : ℕ) :
    effectiveBatchSize (some 0) = 64 ∧
    embed_texts enc g dev ⟨texts, some 0, nm⟩ k =
      embed_texts enc g dev ⟨texts, none, nm⟩ k := by
  exact ⟨rfl, rfl⟩

/-- Claim C2 evaluation, exhibiting a code bug: the
`HTTPException(400, ...)` raised for an empty texts list, or for more
than 64 texts, is caught by the blanket `except Exception` of line 259
and re-raised as a 500 — the caller sees HTTP 500 with the intended 400
detail embedded in the message text, not the 400 status the validation
code and the spec intend; a request with exactly 64 texts succeeds. -/
theorem claim_C2_validation_surfaces_as_500 :
    embed_texts none g0 none ⟨[], some 64, some true⟩ 0 =
      .error ⟨500, "Embedding generation failed: 400: No texts provided"⟩ ∧
    embed_texts none g0 none ⟨List.replicate 65 "a", some 64, some true⟩ 0 =
      .error ⟨500,
        "Embedding generation failed: 400: Too many texts. Maximum allowed: 64"⟩ ∧
    (∃ r, embed_texts none g0 none
      ⟨List.replicate 64 "a", some 64, some true⟩ 0 = .ok r) := by
  exact ⟨rfl, rfl, ⟨_, rfl⟩⟩

/-- Claim C9: with a negative requested batch size the handler still
succeeds (HTTP 200) but the chunking loop runs zero iterations, so the
response carries an empty embeddings list — violating the
one-vector-per-text invariant outside the positive-batch-size
precondition. -/
theorem claim_C9_negative_batch_empty (enc : Option Encoder)
    (g : ℕ → Fin 1024 → ℝ) (dev : Option String) (texts : List String)
    (b : ℤ) (nm : Option Bool) (k : ℕ) (hne : texts ≠ [])
    (hlen : texts.length ≤ 64) (hb : b < 0) :
    ∃ resp, embed_texts enc g dev ⟨texts, some b, nm⟩ k = .ok resp ∧
      resp.embeddings = [] ∧ resp.embeddings.length ≠ texts.length := by
  have hie : texts.isEmpty = false := by
    cases texts with
    | nil => exact absurd rfl hne
    | cons a l => rfl
  have hgt : ¬ texts.length > 64 := by omega
  have hneg : ¬ 0 < effectiveBatchSize (some b) := by
    rw [effectiveBatchSize_neg b hb]
    omega
  have hok : embed_texts enc g dev ⟨texts, some b, nm⟩ k =
      .ok ⟨[], ⟨"BAAI/bge-m3", dev, 1024, texts.length⟩⟩ := by
    simp only [embed_texts, embed_texts_inner, hie, Bool.false_eq_true,
      if_false, if_neg hgt, if_neg hneg]
  refine ⟨_, hok, rfl, ?_⟩
  simp only [List.length_nil]
  intro h0
  exact hne (List.length_eq_zero.mp h0.symm)

/-- Witness for claim C9 at the concrete request
`texts = ["a"], batch_size = -1`. -/
theorem claim_C9_witness :
    ((["a"] : List String) ≠ [] ∧ (["a"] : List String).length ≤ 64 ∧
      (-1 : ℤ) < 0) ∧
    ∃ resp, embed_texts none g0 none ⟨["a"], some (-1), some true⟩ 0 = .ok resp ∧
      resp.embeddings = [] ∧
      resp.embeddings.length ≠ (["a"] : List String).length :=
  ⟨⟨by simp, by simp, by norm_num⟩,
    claim_C9_negative_batch_empty none g0 none ["a"] (-1) (some true) 0
      (by simp) (by simp) (by norm_num)⟩

/-- Claim C4: every vector a successful embed call returns has unit L2
norm or is the all-zero vector, whichever source (model or mock)
produced it; the normalization step divides only when the norm is
positive and skips exactly when the norm is zero — in which case the
vector is all-zero and passes through unchanged, so no division by
zero occurs. -/
theorem claim_C4_always_normalized (v w : List ℝ) (hv : l2norm v = 0)
    (hw : 0 < l2norm w) :
    normalizeVec v = v ∧ (∀ x ∈ v, x = 0) ∧ l2norm (normalizeVec w) = 1 ∧
    ∀ (enc : Option Encoder) (g : ℕ → Fin 1024 → ℝ) (dev : Option String)
      (req : EmbedRequest) (k : ℕ) (resp : EmbedResponse),
      embed_texts enc g dev req k = .ok resp →
      ∀ u ∈ resp.embeddings,
        l2norm u = 1 ∨ (l2norm u = 0 ∧ ∀ x ∈ u, x = 0) :=
  ⟨normalizeVec_of_norm_zero v hv, (l2norm_eq_zero_iff v).mp hv,
    normalizeVec_of_norm_pos w hw, embed_texts_mem_norm⟩

/-- Witness for claim C4 at the concrete vectors `[0]` and `[1]`. -/
theorem claim_C4_witness :
    (l2norm [(0 : ℝ)] = 0 ∧ 0 < l2norm [(1 : ℝ)]) ∧
    (normalizeVec [(0 : ℝ)] = [(0 : ℝ)] ∧ (∀ x ∈ [(0 : ℝ)], x = 0) ∧
      l2norm (normalizeVec [(1 : ℝ)]) = 1 ∧
      ∀ (enc : Option Encoder) (g : ℕ → Fin 1024 → ℝ) (dev : Option String)
        (req : EmbedRequest) (k : ℕ) (resp : EmbedResponse),
        embed_texts enc g dev req k = .ok resp →
        ∀ u ∈ resp.embeddings,
          l2norm u = 1 ∨ (l2norm u = 0 ∧ ∀ x ∈ u, x = 0)) := by
  have h0 : l2norm [(0 : ℝ)] = 0 := by simp [l2norm, sumSq]
  have h1 : 0 < l2norm [(1 : ℝ)] := by
    have he : l2norm [(1 : ℝ)] = 1 := by simp [l2norm, sumSq]
    rw [he]
    exact one_pos
  exact ⟨⟨h0, h1⟩, claim_C4_always_normalized [0] [1] h0 h1⟩

/-- Claim C1: for every non-empty texts list of at most 64 entries and
positive requested batch size — the external encoder meeting its
black-box contract of one 1024-vector per input — the embed operation
succeeds with exactly one embedding per input text (the per-chunk
results concatenated in input order), each vector of length 1024 and of
unit L2 norm unless it is all-zero; with a pointwise deterministic
encoder the response is exactly the per-text normalized encodings in
input order. -/
theorem claim_C1_embed_shape (enc : Option Encoder)
    (hval : ∀ m ∈ enc, ValidEncoder m) (g : ℕ → Fin 1024 → ℝ)
    (dev : Option String) (texts : List String) (b : ℤ) (nm : Option Bool)
    (k : ℕ) (hne : texts ≠ []) (hlen : texts.length ≤ 64) (hb : 0 < b) :
    ∃ resp, embed_texts enc g dev ⟨texts, some b, nm⟩ k = .ok resp ∧
      resp.embeddings.length = texts.length ∧
      (∀ v ∈ resp.embeddings, v.length = 1024) ∧
      (∀ v ∈ resp.embeddings, l2norm v = 1 ∨ ∀ x ∈ v, x = 0) ∧
      (∀ (m : Encoder) (f : String → List ℝ), enc = some m →
        (∀ ts bs2, m.encode ts bs2 = .ok (ts.map f)) →
        resp.embeddings = texts.map fun t => normalizeVec (f t)) := by
  refine ⟨_, embed_texts_ok enc g dev texts b nm k hne hlen hb, ?_, ?_, ?_, ?_⟩
  · exact embedChunks_length enc hval g _ texts k
  · exact embedChunks_mem_length enc hval g _ texts k
  · intro v hv
    rcases embedChunks_mem_norm enc g _ texts k v hv with h | h
    · exact Or.inl h
    · exact Or.inr h.2
  · intro m f hm henc2
    subst hm
    rw [show (⟨(embedChunks (some m) g (effectiveBatchSize (some b)).toNat texts k).1,
        ⟨"BAAI/bge-m3", dev, 1024, texts.length⟩⟩ : EmbedResponse).embeddings =
      (embedChunks (some m) g (effectiveBatchSize (some b)).toNat texts k).1 from rfl]
    rw [embedChunks_pointwise m f henc2 g _ texts k]

/-- Witness for claim C1 at the concrete request
`texts = ["a"], batch_size = 1` with no model loaded. -/
theorem claim_C1_witness :
    ((∀ m ∈ (none : Option Encoder), ValidEncoder m) ∧
      (["a"] : List String) ≠ [] ∧ (["a"] : List String).length ≤ 64 ∧
      (0 : ℤ) < 1) ∧
    ∃ resp, embed_texts none g0 none ⟨["a"], some 1, some true⟩ 0 = .ok resp ∧
      resp.embeddings.length = (["a"] : List String).length ∧
      (∀ v ∈ resp.embeddings, v.length = 1024) ∧
      (∀ v ∈ resp.embeddings, l2norm v = 1 ∨ ∀ x ∈ v, x = 0) ∧
      (∀ (m : Encoder) (f : String → List ℝ), (none : Option Encoder) = some m →
        (∀ ts bs2, m.encode ts bs2 = .ok (ts.map f)) →
        resp.embeddings = (["a"] : List String).map fun t => normalizeVec (f t)) := by
  refine ⟨⟨by simp, by simp, by simp, by norm_num⟩, ?_⟩
  exact claim_C1_embed_shape none (by simp) g0 none ["a"] 1 (some true) 0
    (by simp) (by simp) (by norm_num)
